import Mathlib

/-!
Verification of the mionweb DAQ streaming pipeline against its
natural-language specification.

The definitions below are shallow embeddings of the repository's code:
* `daq.proto` messages (`DataRequest`, `DataChunk`, `Ack`);
* `DAQDataService.GenerateHighPerformanceData` and the pacing arithmetic of
  `DAQDataService.GenerateDataForClient` (C#);
* `DAQStreamService.Subscribe` / `DAQStreamService.Control` (C#);
* the `CircularBuffer` and LOD step logic of the web client (TypeScript);
* `PerformanceMetrics` and `UpdateLatencyStats` of
  `PerformanceMonitorService` (C#).

Machine integers are modelled as `Nat`/`Int` (16-bit packing is made explicit
where the code packs bytes), C# `double` arithmetic as real/rational numbers,
and the C# random noise source as an explicit function parameter.
-/

/-! ## Protocol data model (daq.proto) -/

/-- `daq.DataRequest`: channels, sample_rate, buffer_size plus a free-form
string config map. -/
structure DataRequest where
  channels : Nat
  sampleRate : Nat
  bufferSize : Nat
  config : List (String × String)
deriving DecidableEq, Repr

/-- `daq.DataChunk`: payload bytes, sequence number, producer timestamp,
string tags. Payload bytes are modelled as `Nat`s (values < 256). -/
structure DataChunk where
  payload : List Nat
  seq : Nat
  tickNs : Nat
  tags : List (String × String)
deriving DecidableEq, Repr

/-- `daq.Ack`. -/
structure Ack where
  success : Bool
  message : String
  timestamp : Nat
deriving DecidableEq, Repr

/-! ## 16-bit sample packing

`GenerateHighPerformanceData` converts each clamped sample to a 16-bit signed
integer and writes it little-endian (`BitConverter.GetBytes(short)` on a
little-endian machine): low byte first, two's complement. -/

/-- Two's-complement little-endian encoding of a 16-bit signed integer:
the C# `BitConverter.GetBytes((short)x)` byte pair `[low, high]`. -/
def int16ToBytesLE (x : Int) : List Nat :=
  [(x % 65536).toNat % 256, (x % 65536).toNat / 256]

/-- Decode a little-endian two's-complement byte pair back to the signed
16-bit value it represents. -/
def decodeInt16LE (lo hi : Nat) : Int :=
  let u : Nat := lo % 256 + 256 * (hi % 256)
  if u < 32768 then (u : Int) else (u : Int) - 65536

/-- `Math.Clamp(value, short.MinValue, short.MaxValue)` on a real value. -/
noncomputable def clampReal (v : ℝ) : ℝ :=
  max (-32768) (min 32767 v)

/-- The C# cast `(short)d` of a clamped double: truncation toward zero. -/
noncomputable def truncReal (v : ℝ) : Int :=
  if 0 ≤ v then ⌊v⌋ else ⌈v⌉

/-! ## Waveform synthesizer (`DAQDataService.GenerateHighPerformanceData`)

The C# generator ignores the request's `config` map entirely: base frequency
(1 kHz), amplitude (80% of full scale), waveform shape (fixed mixed harmonic
sum) and noise level (2%) are hard-coded constants.  `Random.Shared
.NextDouble()` is modelled by the parameter `noise`, giving the uniform draw
in `[0,1)` used for the sample at position (sample index, channel index). -/

/-- The real-valued sample the C# code computes for sample slot `s` of
channel `ch`, before clamping and the 16-bit cast.  Mirrors the body of the
double loop in `GenerateHighPerformanceData`. -/
noncomputable def serverSampleReal (sampleRate samplesPerChannel seq s ch : Nat)
    (noise : ℝ) : ℝ :=
  let time : ℝ := ((seq * samplesPerChannel + s : Nat) : ℝ) / (sampleRate : ℝ)
  let baseFrequency : ℝ := 1000
  let amplitude : ℝ := 32767 * (8 / 10)
  let channelFreq : ℝ := baseFrequency * (1 + (ch : ℝ) * (1 / 10))
  let phase : ℝ := 2 * Real.pi * channelFreq * time
  amplitude * ((6 / 10) * Real.sin phase
    + (3 / 10) * Real.sin (2 * phase)
    + (1 / 10) * Real.sin (3 * phase))
  + (noise - 1 / 2) * amplitude * (2 / 100)

/-- The 16-bit integer actually written for one sample:
`(short)Math.Clamp(value, short.MinValue, short.MaxValue)`. -/
noncomputable def serverSampleInt (sampleRate samplesPerChannel seq s ch : Nat)
    (noise : ℝ) : Int :=
  truncReal (clampReal (serverSampleReal sampleRate samplesPerChannel seq s ch noise))

/-- The interleaved byte buffer: outer loop over sample slots, inner loop
over channels, two bytes per sample, exactly as the C# write loop fills
`buffer[sampleIndex*2]` / `buffer[sampleIndex*2+1]`. -/
def generatePayload (channels samplesPerChannel : Nat)
    (sampleValue : Nat → Nat → Int) : List Nat :=
  (List.range samplesPerChannel).flatMap fun s =>
    (List.range channels).flatMap fun ch =>
      int16ToBytesLE (sampleValue s ch)

/-- `GenerateHighPerformanceData(request, sequenceNumber)`: the chunk payload
produced by the server for one sequence number, given the noise draws. -/
noncomputable def generateHighPerformanceData (r : DataRequest) (seq : Nat)
    (noise : Nat → Nat → ℝ) : List Nat :=
  generatePayload r.channels r.bufferSize fun s ch =>
    serverSampleInt r.sampleRate r.bufferSize seq s ch (noise s ch)

/-- Decode an interleaved payload back into its 16-bit samples, two bytes at
a time, little-endian. -/
def decodeSamples : List Nat → List Int
  | lo :: hi :: rest => decodeInt16LE lo hi :: decodeSamples rest
  | _ => []

/-! ## Session pacer (`DAQDataService.GenerateDataForClient`)

The C# loop computes, per session:
`samplesPerSecond = SampleRate * Channels`,
`chunksPerSecond = samplesPerSecond / BufferSize`,
`targetIntervalMs = 1000.0 / chunksPerSecond`,
and after generating a chunk sleeps
`targetDelay = Math.Max(0, targetIntervalMs - generationDuration)`,
skipping the sleep when `targetDelay` is zero. -/

/-- `bytesPerChunk = Channels * BufferSize * 2` (16-bit samples). -/
def bytesPerChunk (r : DataRequest) : Nat := r.channels * r.bufferSize * 2

/-- `samplesPerSecond = SampleRate * Channels` as in `GenerateDataForClient`. -/
def samplesPerSecond (r : DataRequest) : Nat := r.sampleRate * r.channels

/-- `chunksPerSecond = samplesPerSecond / samplesPerChunk` (double division). -/
def chunksPerSecond (r : DataRequest) : ℚ :=
  (samplesPerSecond r : ℚ) / (r.bufferSize : ℚ)

/-- `targetIntervalMs = 1000.0 / chunksPerSecond`. -/
def targetIntervalMs (r : DataRequest) : ℚ := 1000 / chunksPerSecond r

/-- `targetDataRate = Channels * SampleRate * bytesPerSample` as computed and
logged by `DAQStreamService.Subscribe` (the nominal stream byte rate). -/
def targetDataRate (r : DataRequest) : Nat := r.channels * r.sampleRate * 2

/-- The per-cycle sleep: `Math.Max(0, targetIntervalMs - generationDuration)`;
the code sleeps exactly this amount (it skips the `Task.Delay` when the value
is zero). -/
def pacerDelay (intervalMs generationMs : ℚ) : ℚ := max 0 (intervalMs - generationMs)

/-- Modelled from the spec: the spec's pacer formula
`targetIntervalMs = 1000 * bytesPerChunk / targetBytesPerSecond`, read with
the code's own nominal byte rate `targetDataRate` as `targetBytesPerSecond`.
Stated only to compare against the implementation's `targetIntervalMs`. -/
def specTargetIntervalMs (r : DataRequest) : ℚ :=
  1000 * (bytesPerChunk r : ℚ) / (targetDataRate r : ℚ)

/-- `HighPerformanceStreamer` (web client): `chunkInterval =
Math.max(8, 1000 / chunksPerSecond)` where `chunksPerSecond =
targetMBps*1024*1024 / bytesPerChunk`. -/
def hpStreamerChunkInterval (channels bufferSize targetDataRateMBps : Nat) : ℚ :=
  max 8 (1000 / ((targetDataRateMBps * 1024 * 1024 : ℚ) / (channels * bufferSize * 2 : ℚ)))

/-! ## `DAQStreamService.Subscribe`: validation and error surface

The C# method throws `RpcException(InvalidArgument)` when any of channels,
sample rate or buffer size is zero — but the throw happens inside a `try`
whose `catch (Exception ex)` re-wraps every exception as
`RpcException(Internal, "数据流传输错误: " + ex.Message)`.  The model keeps the
two layers separate: `subscribeBody` is the `try` body up to the start of
streaming, `subscribeOutcome` adds the catch-all translation. -/

inductive StatusCode where
  | ok
  | invalidArgument
  | internal
deriving DecidableEq, Repr

structure RpcError where
  code : StatusCode
  message : String
deriving DecidableEq, Repr

/-- The `try` body of `Subscribe` up to (and excluding) the streaming loop:
validation, then session allocation / generation start, which always
succeeds.  `.ok` means the session is allocated and streaming begins; no
chunk is generated before this point. -/
def subscribeBody (r : DataRequest) : Except RpcError Unit :=
  if r.channels = 0 ∨ r.sampleRate = 0 ∨ r.bufferSize = 0 then
    .error ⟨.invalidArgument, "无效的请求参数"⟩
  else
    .ok ()

/-- The client-visible outcome of `Subscribe` before any chunk is streamed:
the surrounding `catch (Exception ex)` converts any thrown `RpcException`
into a `StatusCode.Internal` error wrapping its message. -/
def subscribeOutcome (r : DataRequest) : Except RpcError Unit :=
  match subscribeBody r with
  | .error e => .error ⟨.internal, "数据流传输错误: " ++ e.message⟩
  | .ok u => .ok u

/-! ## `DAQStreamService.Control` and the global flag

Global state of `DAQDataService`: the `volatile bool _globalDataGeneration`
plus the per-client sessions (modelled as id/isActive pairs).  Each of the
five command handlers always returns `true`; the `switch` default returns
`false`. -/

structure ServerState where
  globalDataGeneration : Bool
  sessions : List (String × Bool)
deriving DecidableEq, Repr

/-- `StartGlobalDataGeneration`: sets the flag, returns true. -/
def startGlobalDataGeneration (s : ServerState) : ServerState × Bool :=
  ({ s with globalDataGeneration := true }, true)

/-- `StopGlobalDataGeneration`: clears the flag, cancels every session,
returns true. -/
def stopGlobalDataGeneration (s : ServerState) : ServerState × Bool :=
  ({ globalDataGeneration := false,
     sessions := s.sessions.map fun p => (p.1, false) }, true)

/-- `PauseGlobalDataGeneration`: clears the flag, returns true. -/
def pauseGlobalDataGeneration (s : ServerState) : ServerState × Bool :=
  ({ s with globalDataGeneration := false }, true)

/-- `ResumeGlobalDataGeneration`: sets the flag, returns true. -/
def resumeGlobalDataGeneration (s : ServerState) : ServerState × Bool :=
  ({ s with globalDataGeneration := true }, true)

/-- `ResetGlobalDataGeneration`: stop, brief delay, start; returns true. -/
def resetGlobalDataGeneration (s : ServerState) : ServerState × Bool :=
  let s1 := (stopGlobalDataGeneration s).1
  let s2 := (startGlobalDataGeneration s1).1
  (s2, true)

/-- Proto enum values START=0, STOP=1, PAUSE=2, RESUME=3, RESET=4; any other
integer is an unrecognized enum value. -/
def commandName : Nat → String
  | 0 => "Start"
  | 1 => "Stop"
  | 2 => "Pause"
  | 3 => "Resume"
  | 4 => "Reset"
  | n => toString n

/-- The `switch` in `Control`: dispatch to the handler, `_ => false`. -/
def controlDispatch (cmd : Nat) (s : ServerState) : ServerState × Bool :=
  match cmd with
  | 0 => startGlobalDataGeneration s
  | 1 => stopGlobalDataGeneration s
  | 2 => pauseGlobalDataGeneration s
  | 3 => resumeGlobalDataGeneration s
  | 4 => resetGlobalDataGeneration s
  | _ => (s, false)

/-- `Control(request)`: builds the `Ack` from the dispatch result, with the
success/failure message the C# code interpolates. -/
def controlCommand (cmd : Nat) (s : ServerState) (now : Nat) : Ack × ServerState :=
  let d := controlDispatch cmd s
  ({ success := d.2,
     message := if d.2 then "命令 " ++ commandName cmd ++ " 执行成功"
                else "命令 " ++ commandName cmd ++ " 执行失败",
     timestamp := now }, d.1)

/-! ## Transport loop (`DAQStreamService.Subscribe` streaming loop)

Chunks dequeued from the per-client queue are written in batches of at most
10; at each write the loop overwrites `chunk.Seq` with `sequenceNumber++`
and `chunk.TickNs` with the wall clock.  `clock n` models the wall-clock
value read at the `n`-th write. -/

/-- One batch: assign consecutive sequence numbers (and write-time
timestamps) to the dequeued chunks, in dequeue order. -/
def assignSeqs (clock : Nat → Nat) : List DataChunk → Nat → List DataChunk
  | [], _ => []
  | c :: cs, n => { c with seq := n, tickNs := clock n } :: assignSeqs clock cs (n + 1)

/-- The whole transmission: repeatedly drain batches of ≤ 10 chunks from the
queue (`q` lists every chunk the generator enqueues, in dequeue order),
threading the write-time sequence counter.  `fuel` bounds the number of
batch iterations. -/
def transportLoop (clock : Nat → Nat) : Nat → List DataChunk → Nat → List DataChunk
  | 0, _, _ => []
  | _ + 1, [], _ => []
  | fuel + 1, q, counter =>
      assignSeqs clock (q.take 10) counter
        ++ transportLoop clock fuel (q.drop 10) (counter + (q.take 10).length)

/-! ## Client `CircularBuffer` (WaveformChart.tsx)

Two parallel `Float32Array`s plus a write index and a full flag; `push`
wraps modulo `size` and marks full once the index wraps to 0; `getData`
returns the chronological content. Float values are modelled as `Int` (the
claims are value-generic). -/

structure CircularBuffer where
  size : Nat
  buffer : List Int
  timeBuffer : List Int
  writeIndex : Nat
  isFull : Bool
deriving DecidableEq, Repr

/-- `new CircularBuffer(size)`: zero-filled arrays, write index 0, not full. -/
def CircularBuffer.init (n : Nat) : CircularBuffer :=
  ⟨n, List.replicate n 0, List.replicate n 0, 0, false⟩

/-- `push(value, time)`: write both arrays at `writeIndex`, advance modulo
`size`, set `isFull` when the index wraps to 0. -/
def CircularBuffer.push (b : CircularBuffer) (value time : Int) : CircularBuffer :=
  let w : Nat := (b.writeIndex + 1) % b.size
  { b with
    buffer := b.buffer.set b.writeIndex value
    timeBuffer := b.timeBuffer.set b.writeIndex time
    writeIndex := w
    isFull := b.isFull || w == 0 }

/-- `getData()`: `{values, times, length}` — when full, re-order starting at
the current write index; otherwise the written prefix. -/
def CircularBuffer.getData (b : CircularBuffer) : List Int × List Int × Nat :=
  if b.isFull then
    ((List.range b.size).map fun i => b.buffer.getD ((b.writeIndex + i) % b.size) 0,
     (List.range b.size).map fun i => b.timeBuffer.getD ((b.writeIndex + i) % b.size) 0,
     b.size)
  else
    (b.buffer.take b.writeIndex, b.timeBuffer.take b.writeIndex, b.writeIndex)

/-- `clear()`: reset index and flag, keep storage. -/
def CircularBuffer.clear (b : CircularBuffer) : CircularBuffer :=
  { b with writeIndex := 0, isFull := false }

/-- Push a list of (value, time) pairs in order. -/
def CircularBuffer.pushAll (b : CircularBuffer) (l : List (Int × Int)) : CircularBuffer :=
  l.foldl (fun acc p => acc.push p.1 p.2) b

/-- The chronological (value, time) pairs exposed by `getData`. -/
def CircularBuffer.chron (b : CircularBuffer) : List (Int × Int) :=
  b.getData.1.zip b.getData.2.1

/-! ## LOD step (`calculateOptimalStep`, WaveformChart.tsx) -/

/-- `calculateOptimalStep(dataLength, targetPoints)`: 1 when the data already
fits, else `max(1, floor(dataLength / targetPoints))`. -/
def calculateOptimalStep (dataLength targetPoints : Nat) : Nat :=
  if dataLength ≤ targetPoints then 1
  else max 1 (dataLength / targetPoints)

/-- The sampling loop `for (i = 0; i < len; i += step)`, fuel-bounded (the
fuel only caps iterations; with `step ≥ 1`, `len` iterations suffice). -/
def lodLoop : Nat → Nat → Nat → Nat → List Nat
  | 0, _, _, _ => []
  | fuel + 1, i, len, step => if i < len then i :: lodLoop fuel (i + step) len step else []

/-- Indices kept by one LOD pass over `len` source points with step `step`. -/
def lodIndices (len step : Nat) : List Nat := lodLoop len 0 len step

/-! ## `PerformanceMetrics` (PerformanceMonitorService.cs)

Counters are `long`s updated with `Interlocked`; the latency aggregate
(count, sum, min, max, 6-bucket histogram) lives behind `LatencyLock`.
`Reset()` executes three separately-atomic steps in order: exchange the
bytes counter, exchange the packets counter, then clear the latency block
under the lock. -/

structure PerformanceMetrics where
  totalBytesSent : Int
  totalPacketsSent : Int
  latencyCount : Int
  latencySum : ℚ
  minLatency : ℚ
  maxLatency : ℚ
  latencyDistribution : List Int
deriving DecidableEq, Repr

/-- A metrics value with every counter and histogram bucket zero. -/
def PerformanceMetrics.zeroed : PerformanceMetrics :=
  ⟨0, 0, 0, 0, 0, 0, List.replicate 6 0⟩

/-- `UpdateLatencyStats(metrics, latencyMs)`: bump count/sum/min/max and the
bucket picked by the fixed boundaries ≤1, ≤5, ≤10, ≤50, ≤100, else. -/
def updateLatencyStats (m : PerformanceMetrics) (latencyMs : ℚ) : PerformanceMetrics :=
  let idx : Nat :=
    if latencyMs ≤ 1 then 0
    else if latencyMs ≤ 5 then 1
    else if latencyMs ≤ 10 then 2
    else if latencyMs ≤ 50 then 3
    else if latencyMs ≤ 100 then 4
    else 5
  { m with
    latencyCount := m.latencyCount + 1
    latencySum := m.latencySum + latencyMs
    minLatency := if latencyMs < m.minLatency ∨ m.minLatency = 0 then latencyMs else m.minLatency
    maxLatency := if m.maxLatency < latencyMs then latencyMs else m.maxLatency
    latencyDistribution :=
      m.latencyDistribution.set idx (m.latencyDistribution.getD idx 0 + 1) }

/-- `Interlocked.Exchange(ref TotalBytesSent, 0)` — first atomic step of
`Reset()`. -/
def resetBytesStep (m : PerformanceMetrics) : PerformanceMetrics :=
  { m with totalBytesSent := 0 }

/-- `Interlocked.Exchange(ref TotalPacketsSent, 0)` — second atomic step. -/
def resetPacketsStep (m : PerformanceMetrics) : PerformanceMetrics :=
  { m with totalPacketsSent := 0 }

/-- The `lock (LatencyLock)` block of `Reset()`: zero count, sum, min, max
and clear all six histogram buckets — third atomic step. -/
def resetLatencyStep (m : PerformanceMetrics) : PerformanceMetrics :=
  { m with
    latencyCount := 0
    latencySum := 0
    minLatency := 0
    maxLatency := 0
    latencyDistribution := List.replicate 6 0 }

/-- `Reset()` run to completion: the three steps in program order. -/
def PerformanceMetrics.reset (m : PerformanceMetrics) : PerformanceMetrics :=
  resetLatencyStep (resetPacketsStep (resetBytesStep m))

/-- Well-formedness of a `CircularBuffer` state: both arrays have the
allocated capacity and the write index is in range.  Holds for `init c`
with `0 < c` and is preserved by `push`. -/
def CircularBuffer.WF (b : CircularBuffer) : Prop :=
  b.buffer.length = b.size ∧ b.timeBuffer.length = b.size ∧ b.writeIndex < b.size

/-! # Theorems -/

/-! ## Byte-level facts about the 16-bit packing -/

theorem int16ToBytesLE_length (x : Int) : (int16ToBytesLE x).length = 2 := rfl

theorem decode_int16ToBytesLE (x : Int) (h1 : -32768 ≤ x) (h2 : x ≤ 32767) :
    decodeInt16LE (int16ToBytesLE x)[0]! (int16ToBytesLE x)[1]! = x := by
  simp only [int16ToBytesLE, decodeInt16LE, List.getElem!_cons_zero,
    List.getElem!_cons_succ]
  have hnn : 0 ≤ x % 65536 := Int.emod_nonneg x (by norm_num)
  have hlt : x % 65536 < 65536 := Int.emod_lt_of_pos x (by norm_num)
  have hx : x % 65536 = x ∨ x % 65536 = x + 65536 := by omega
  rcases hx with hx | hx <;> (rw [hx]; split <;> [skip; skip] <;> omega)

theorem decodeSamples_cons (lo hi : Nat) (rest : List Nat) :
    decodeSamples (lo :: hi :: rest) = decodeInt16LE lo hi :: decodeSamples rest := rfl

/-- Decoding distributes over a flat list of encoded 16-bit values. -/
theorem decodeSamples_flatMap (l : List Int) :
    decodeSamples (l.flatMap int16ToBytesLE)
      = l.map (fun x => decodeInt16LE (int16ToBytesLE x)[0]! (int16ToBytesLE x)[1]!) := by
  induction l with
  | nil => rfl
  | cons x xs ih =>
      simp only [List.flatMap_cons, List.map_cons, int16ToBytesLE, List.cons_append,
        List.nil_append, decodeSamples_cons, List.getElem!_cons_zero,
        List.getElem!_cons_succ] at *
      exact congrArg _ ih

/-! ## C4: LOD step computation -/

set_option maxRecDepth 8000 in
/-- C4: the LOD downsampling step equals `max(1, floor(sourceLength /
targetPointCount))` for every positive target; in particular for
`sourceLength = 100000` and `targetPointCount = 500` the step is 200, and
the sampling loop then keeps at most `targetPointCount + 1` points. -/
theorem calculateOptimalStep_spec :
    (∀ dataLength targetPoints, 0 < targetPoints →
      calculateOptimalStep dataLength targetPoints = max 1 (dataLength / targetPoints)) ∧
    calculateOptimalStep 100000 500 = 200 ∧
    (lodIndices 100000 (calculateOptimalStep 100000 500)).length ≤ 500 + 1 := by
  refine ⟨?_, by norm_num [calculateOptimalStep], ?_⟩
  · intro L T hT
    unfold calculateOptimalStep
    split
    · next h =>
        have hd : L / T ≤ 1 := le_trans (Nat.div_le_div_right h) (le_of_eq (Nat.div_self hT))
        omega
    · rfl
  · have hstep : calculateOptimalStep 100000 500 = 200 := by norm_num [calculateOptimalStep]
    rw [hstep]
    decide

/-- Witness for `calculateOptimalStep_spec` at a concrete input. -/
theorem calculateOptimalStep_spec_witness :
    calculateOptimalStep 12 5 = max 1 (12 / 5) :=
  calculateOptimalStep_spec.1 12 5 (by norm_num)

/-! ## C5: Subscribe validation -/

/-- C5: with a zero parameter, `Subscribe`'s validation throws
`InvalidArgument` synchronously — but the method's own `catch (Exception)`
re-wraps it, so the client-visible error carries `StatusCode.Internal`, not
`InvalidArgument`; with all-positive parameters the body proceeds to start
streaming. -/
theorem subscribe_invalid_params_surfaces_internal :
    subscribeBody ⟨0, 1000, 256, []⟩
      = .error ⟨.invalidArgument, "无效的请求参数"⟩ ∧
    subscribeOutcome ⟨0, 1000, 256, []⟩
      = .error ⟨.internal, "数据流传输错误: " ++ "无效的请求参数"⟩ ∧
    StatusCode.internal ≠ StatusCode.invalidArgument ∧
    subscribeOutcome ⟨1, 1000, 256, []⟩ = .ok () := by
  refine ⟨rfl, rfl, by decide, rfl⟩

/-! ## C7: pacer interval and sleep -/

/-- C7 counterexample: the implemented interval is NOT
`1000 * bytesPerChunk / targetBytesPerSecond` (with the code's own nominal
byte rate `targetDataRate` as target): at channels=2, sampleRate=1000,
bufferSize=100 the code computes 50 ms, the claimed formula 100 ms. -/
theorem targetIntervalMs_not_spec_formula :
    targetIntervalMs ⟨2, 1000, 100, []⟩ = 50 ∧
    specTargetIntervalMs ⟨2, 1000, 100, []⟩ = 100 ∧
    targetIntervalMs ⟨2, 1000, 100, []⟩ ≠ specTargetIntervalMs ⟨2, 1000, 100, []⟩ := by
  refine ⟨?_, ?_, ?_⟩ <;>
    norm_num [targetIntervalMs, chunksPerSecond, samplesPerSecond,
      specTargetIntervalMs, bytesPerChunk, targetDataRate]

/-- C7 amended: each pacer cycle sleeps
`max(0, targetIntervalMs - generationDurationMs)` and proceeds with no sleep
when generation alone exceeds the interval; but the interval the code derives
is `1000 * bufferSize / (sampleRate * channels)` milliseconds (equivalently
`1000 * bytesPerChunk / (2 * sampleRate * channels^2)`), not
`1000 * bytesPerChunk / targetBytesPerSecond`. -/
theorem pacer_cycle_spec (r : DataRequest) (h1 : 0 < r.channels)
    (h2 : 0 < r.sampleRate) (h3 : 0 < r.bufferSize) :
    targetIntervalMs r
      = 1000 * (r.bufferSize : ℚ) / ((r.sampleRate : ℚ) * (r.channels : ℚ)) ∧
    (∀ g : ℚ, pacerDelay (targetIntervalMs r) g = max 0 (targetIntervalMs r - g)) ∧
    (∀ g : ℚ, targetIntervalMs r ≤ g → pacerDelay (targetIntervalMs r) g = 0) := by
  refine ⟨?_, fun g => rfl, fun g hg => ?_⟩
  · unfold targetIntervalMs chunksPerSecond samplesPerSecond
    rw [div_div_eq_mul_div]
    push_cast
    ring
  · unfold pacerDelay
    exact max_eq_left (sub_nonpos.mpr hg)

/-- Witness for `pacer_cycle_spec` at a concrete request. -/
theorem pacer_cycle_spec_witness :
    pacerDelay (targetIntervalMs ⟨1, 1000, 100, []⟩) 200 = 0 :=
  (pacer_cycle_spec ⟨1, 1000, 100, []⟩ (by norm_num) (by norm_num) (by norm_num)).2.2
    200 (by norm_num [targetIntervalMs, chunksPerSecond, samplesPerSecond])

/-! ## C8: Control command acknowledgements -/

/-- C8: `Control` acknowledges each of the five known commands (START=0,
STOP=1, PAUSE=2, RESUME=3, RESET=4) with `success = true` regardless of the
current global state; an unknown command value yields `success = false` with
the human-readable failure message; and START while already started is a
no-op success (the state is unchanged). -/
theorem control_ack_spec :
    (∀ cmd s now, cmd < 5 → (controlCommand cmd s now).1.success = true) ∧
    (∀ cmd s now, 5 ≤ cmd → (controlCommand cmd s now).1.success = false ∧
      (controlCommand cmd s now).1.message
        = "命令 " ++ commandName cmd ++ " 执行失败") ∧
    (∀ s now, s.globalDataGeneration = true →
      (controlCommand 0 s now).1.success = true ∧ (controlCommand 0 s now).2 = s) := by
  refine ⟨?_, ?_, ?_⟩
  · intro cmd s now h
    interval_cases cmd <;> rfl
  · intro cmd s now h
    match cmd, h with
    | n + 5, _ => exact ⟨rfl, rfl⟩
  · intro s now h
    obtain ⟨g, ss⟩ := s
    cases h
    exact ⟨rfl, rfl⟩

/-- Witness for `control_ack_spec` at concrete commands and states. -/
theorem control_ack_spec_witness :
    (controlCommand 3 ⟨false, [("a", true)]⟩ 5).1.success = true ∧
    (controlCommand 9 ⟨true, []⟩ 0).1.success = false :=
  ⟨control_ack_spec.1 3 ⟨false, [("a", true)]⟩ 5 (by norm_num),
   (control_ack_spec.2.1 9 ⟨true, []⟩ 0 (by norm_num)).1⟩

/-! ## C9: metrics reset -/

/-- C9 counterexample: `Reset()` is not atomic — after its first interlocked
step (a program point where no lock excludes readers), the bytes counter is
already zero while the packets counter and histogram still hold their old
values, a state equal to neither the pre-reset nor the post-reset state. -/
theorem reset_partial_state_observable :
    (resetBytesStep ⟨7, 7, 7, 7, 7, 7, [1, 1, 1, 1, 1, 1]⟩).totalBytesSent = 0 ∧
    (resetBytesStep ⟨7, 7, 7, 7, 7, 7, [1, 1, 1, 1, 1, 1]⟩).totalPacketsSent = 7 ∧
    (resetBytesStep ⟨7, 7, 7, 7, 7, 7, [1, 1, 1, 1, 1, 1]⟩).latencyDistribution
      = [1, 1, 1, 1, 1, 1] ∧
    resetBytesStep ⟨7, 7, 7, 7, 7, 7, [1, 1, 1, 1, 1, 1]⟩
      ≠ PerformanceMetrics.reset ⟨7, 7, 7, 7, 7, 7, [1, 1, 1, 1, 1, 1]⟩ ∧
    resetBytesStep ⟨7, 7, 7, 7, 7, 7, [1, 1, 1, 1, 1, 1]⟩
      ≠ ⟨7, 7, 7, 7, 7, 7, [1, 1, 1, 1, 1, 1]⟩ := by
  refine ⟨rfl, rfl, rfl, by decide, by decide⟩

/-- C9 amended: once `Reset()` completes, every field — bytes counter,
packets counter, latency count, sum, min, max and all six histogram buckets
(the buckets `UpdateLatencyStats` fills at boundaries ≤1, ≤5, ≤10, ≤50,
≤100, else) — reads zero, for any starting state. -/
theorem reset_clears_all_fields (m : PerformanceMetrics) :
    m.reset = PerformanceMetrics.zeroed ∧
    m.reset.totalBytesSent = 0 ∧
    m.reset.totalPacketsSent = 0 ∧
    m.reset.latencyCount = 0 ∧
    m.reset.latencySum = 0 ∧
    m.reset.minLatency = 0 ∧
    m.reset.maxLatency = 0 ∧
    m.reset.latencyDistribution = List.replicate 6 0 ∧
    (updateLatencyStats m 3).reset = PerformanceMetrics.zeroed :=
  ⟨rfl, rfl, rfl, rfl, rfl, rfl, rfl, rfl, rfl⟩

/-! ## C2: transport-loop sequence numbering -/

theorem assignSeqs_map_seq (clock : Nat → Nat) (l : List DataChunk) (n : Nat) :
    (assignSeqs clock l n).map DataChunk.seq = List.range' n l.length := by
  induction l generalizing n with
  | nil => rfl
  | cons c cs ih =>
      simp only [assignSeqs, List.map_cons, List.length_cons, List.range'_succ, ih]

theorem transportLoop_map_seq (clock : Nat → Nat) (fuel : Nat) :
    ∀ (q : List DataChunk) (counter : Nat), q.length ≤ fuel →
      (transportLoop clock fuel q counter).map DataChunk.seq
        = List.range' counter q.length := by
  induction fuel with
  | zero =>
      intro q counter h
      obtain rfl : q = [] := List.length_eq_zero.mp (Nat.le_zero.mp h)
      rfl
  | succ fuel ih =>
      intro q counter h
      match q with
      | [] => rfl
      | x :: xs =>
          rw [transportLoop, List.map_append, assignSeqs_map_seq,
            ih _ _ (by simp only [List.length_drop, List.length_cons] at h ⊢; omega)]
          have happ := List.range'_append counter ((x :: xs).take 10).length
            ((x :: xs).drop 10).length 1
          simp only [one_mul] at happ
          rw [happ]
          congr 1
          · simp only [List.length_take, List.length_drop, List.length_cons]
            omega
          · exact fun hx => List.noConfusion hx

/-- C2: within one `Subscribe` stream, the transport loop overwrites each
chunk's `seq` at write time with a counter starting at 0, so the n-th chunk
written has `seq = n - 1`: sequence numbers are `0, 1, 2, ...` in
transmission order with no gaps or repeats, whatever sequence values the
generator stamped on the queued chunks. -/
theorem transport_seq_in_transmission_order (clock : Nat → Nat)
    (q : List DataChunk) (fuel : Nat) (h : q.length ≤ fuel) :
    (transportLoop clock fuel q 0).map DataChunk.seq = List.range q.length := by
  rw [transportLoop_map_seq clock fuel q 0 h, List.range_eq_range']

/-- Witness for `transport_seq_in_transmission_order`: two queued chunks that
the generator stamped with seq 99 and 42 are written with seq 0 and 1. -/
theorem transport_seq_in_transmission_order_witness :
    (transportLoop (fun _ => 0) 2 [⟨[], 99, 5, []⟩, ⟨[], 42, 6, []⟩] 0).map DataChunk.seq
      = List.range 2 :=
  transport_seq_in_transmission_order (fun _ => 0) [⟨[], 99, 5, []⟩, ⟨[], 42, 6, []⟩] 2
    (by norm_num)

/-! ## C3: circular buffer -/

theorem List.getD_set_ne' (l : List Int) (i j : Nat) (v : Int) (hij : i ≠ j) :
    (l.set i v).getD j 0 = l.getD j 0 := by
  rcases Nat.lt_or_ge j l.length with hj | hj
  · rw [List.getD_eq_getElem _ _ (by simpa using hj), List.getD_eq_getElem _ _ hj,
      List.getElem_set_ne hij]
  · rw [List.getD_eq_default _ _ (by simpa using hj), List.getD_eq_default _ _ hj]

theorem List.getD_set_self' (l : List Int) (i : Nat) (v : Int) (hi : i < l.length) :
    (l.set i v).getD i 0 = v := by
  rw [List.getD_eq_getElem _ _ (by simpa using hi), List.getElem_set_self]

/-- Reading a (value, time) list of known length back by index recovers it. -/
theorem map_getD_range_zip (X : List Int) :
    ∀ Y : List Int, Y.length = X.length →
      (List.range X.length).map (fun i => (X.getD i 0, Y.getD i 0)) = X.zip Y := by
  induction X with
  | nil => intro Y _; simp
  | cons x xs ih =>
      intro Y hY
      match Y, hY with
      | y :: ys, hY =>
          simp only [List.length_cons, List.range_succ_eq_map, List.map_cons,
            List.map_map, List.zip_cons_cons]
          refine congrArg₂ _ rfl ?_
          rw [← ih ys (by simpa using hY)]
          exact List.map_congr_left fun i _ => rfl

theorem CircularBuffer.WF_init (c : Nat) (hc : 0 < c) : (CircularBuffer.init c).WF := by
  refine ⟨?_, ?_, ?_⟩ <;> simp [CircularBuffer.init, hc]

theorem CircularBuffer.WF_push (b : CircularBuffer) (v t : Int) (h : b.WF) :
    (b.push v t).WF := by
  obtain ⟨hb, ht, hw⟩ := h
  refine ⟨?_, ?_, ?_⟩ <;>
    simp [CircularBuffer.push, hb, ht, Nat.mod_lt _ (lt_of_le_of_lt (Nat.zero_le _) hw)]

theorem CircularBuffer.chron_not_full (b : CircularBuffer) (h : b.isFull = false) :
    b.chron = (b.buffer.take b.writeIndex).zip (b.timeBuffer.take b.writeIndex) := by
  simp [CircularBuffer.chron, CircularBuffer.getData, h]

theorem CircularBuffer.chron_full (b : CircularBuffer) (h : b.isFull = true) :
    b.chron = (List.range b.size).map fun i =>
      (b.buffer.getD ((b.writeIndex + i) % b.size) 0,
       b.timeBuffer.getD ((b.writeIndex + i) % b.size) 0) := by
  simp [CircularBuffer.chron, CircularBuffer.getData, h, List.zip_map']

theorem CircularBuffer.chron_length (b : CircularBuffer) (h : b.WF) :
    b.chron.length = if b.isFull then b.size else b.writeIndex := by
  obtain ⟨hb, ht, hw⟩ := h
  by_cases hf : b.isFull
  · rw [b.chron_full hf, if_pos hf, List.length_map, List.length_range]
  · rw [b.chron_not_full (Bool.not_eq_true _ ▸ hf), if_neg hf, List.length_zip,
      List.length_take, List.length_take, hb, ht]
    omega

/-- Rotated read of a wrapped slot index never hits the slot just written,
except at the last position. -/
theorem wrapped_index_ne (c w i : Nat) (hw : w < c) (hi : i < c - 1) :
    (w + 1 + i) % c ≠ w := by
  rcases Nat.lt_or_ge (w + 1 + i) c with hlt | hge
  · rw [Nat.mod_eq_of_lt hlt]; omega
  · rw [Nat.mod_eq_sub_mod hge, Nat.mod_eq_of_lt (by omega)]; omega


/-- One `push` extends the chronological content, evicting the oldest entry
when the buffer is full. -/
theorem CircularBuffer.chron_push (b : CircularBuffer) (v t : Int) (hWF : b.WF) :
    (b.push v t).chron = (if b.isFull then b.chron.drop 1 else b.chron) ++ [(v, t)] := by
  obtain ⟨hb, ht, hw⟩ := hWF
  have hc : 0 < b.size := lt_of_le_of_lt (Nat.zero_le _) hw
  by_cases hf : b.isFull
  · -- already full: rotation shifts by one and the new pair lands last
    have hfull' : (b.push v t).isFull = true := by
      simp [CircularBuffer.push, hf]
    rw [if_pos hf, (b.push v t).chron_full hfull', b.chron_full hf]
    show (List.range b.size).map (fun i =>
        ((b.buffer.set b.writeIndex v).getD (((b.writeIndex + 1) % b.size + i) % b.size) 0,
         (b.timeBuffer.set b.writeIndex t).getD (((b.writeIndex + 1) % b.size + i) % b.size) 0))
      = ((List.range b.size).map fun i =>
          (b.buffer.getD ((b.writeIndex + i) % b.size) 0,
           b.timeBuffer.getD ((b.writeIndex + i) % b.size) 0)).drop 1 ++ [(v, t)]
    obtain ⟨k, hk⟩ : ∃ k, b.size = k + 1 := ⟨b.size - 1, by omega⟩
    have hRHS : ((List.range (k + 1)).map fun i =>
          (b.buffer.getD ((b.writeIndex + i) % b.size) 0,
           b.timeBuffer.getD ((b.writeIndex + i) % b.size) 0)).drop 1
        = (List.range k).map fun i =>
            (b.buffer.getD ((b.writeIndex + (i + 1)) % b.size) 0,
             b.timeBuffer.getD ((b.writeIndex + (i + 1)) % b.size) 0) := by
      rw [List.range_succ_eq_map, List.map_cons, List.drop_one, List.tail_cons, List.map_map]
      exact List.map_congr_left fun i _ => by simp [Nat.succ_eq_add_one]
    rw [show List.range b.size = List.range (k + 1) from by rw [hk], hRHS,
      List.range_succ, List.map_append, List.map_cons, List.map_nil]
    refine congrArg₂ _ (List.map_congr_left fun i hi => ?_) ?_
    · have hik : i < k := List.mem_range.mp hi
      have hidx : ((b.writeIndex + 1) % b.size + i) % b.size
          = (b.writeIndex + 1 + i) % b.size := Nat.mod_add_mod _ _ _
      have hne : (b.writeIndex + 1 + i) % b.size ≠ b.writeIndex :=
        wrapped_index_ne b.size b.writeIndex i hw (by omega)
      have harg : b.writeIndex + (i + 1) = b.writeIndex + 1 + i := by omega
      rw [hidx, harg, List.getD_set_ne' _ _ _ _ (Ne.symm hne),
        List.getD_set_ne' _ _ _ _ (Ne.symm hne)]
    · have hidx : ((b.writeIndex + 1) % b.size + k) % b.size = b.writeIndex := by
        rw [Nat.mod_add_mod]
        have h2 : b.writeIndex + 1 + k = b.writeIndex + b.size := by omega
        rw [h2, Nat.add_mod_right, Nat.mod_eq_of_lt hw]
      rw [hidx, List.getD_set_self' _ _ _ (hb ▸ hw), List.getD_set_self' _ _ _ (ht ▸ hw)]
  · -- not yet full: the written prefix grows by one (and the buffer may
    -- become full exactly when the index wraps)
    have hf' : b.isFull = false := Bool.not_eq_true _ ▸ hf
    rw [if_neg hf, b.chron_not_full hf']
    have hsetb : b.buffer.set b.writeIndex v
        = b.buffer.take b.writeIndex ++ v :: b.buffer.drop (b.writeIndex + 1) :=
      List.set_eq_take_cons_drop v (hb ▸ hw)
    have hsett : b.timeBuffer.set b.writeIndex t
        = b.timeBuffer.take b.writeIndex ++ t :: b.timeBuffer.drop (b.writeIndex + 1) :=
      List.set_eq_take_cons_drop t (ht ▸ hw)
    have hlb : (b.buffer.take b.writeIndex).length = b.writeIndex := by
      rw [List.length_take]; omega
    have hlt' : (b.timeBuffer.take b.writeIndex).length = b.writeIndex := by
      rw [List.length_take]; omega
    by_cases hwrap : b.writeIndex + 1 = b.size
    · -- the write index wraps: the buffer becomes full, and the rotated
      -- read starting at 0 is the raw array
      have hmod : (b.writeIndex + 1) % b.size = 0 := by rw [hwrap, Nat.mod_self]
      have hfull' : (b.push v t).isFull = true := by
        simp [CircularBuffer.push, hmod]
      rw [(b.push v t).chron_full hfull']
      show (List.range b.size).map (fun i =>
          ((b.buffer.set b.writeIndex v).getD (((b.writeIndex + 1) % b.size + i) % b.size) 0,
           (b.timeBuffer.set b.writeIndex t).getD (((b.writeIndex + 1) % b.size + i) % b.size) 0))
        = _
      have hd1 : b.buffer.drop (b.writeIndex + 1) = [] :=
        List.drop_eq_nil_of_le (by omega)
      have hd2 : b.timeBuffer.drop (b.writeIndex + 1) = [] :=
        List.drop_eq_nil_of_le (by omega)
      have hsetb1 : b.buffer.set b.writeIndex v = b.buffer.take b.writeIndex ++ [v] := by
        rw [hsetb, hd1]
      have hsett1 : b.timeBuffer.set b.writeIndex t = b.timeBuffer.take b.writeIndex ++ [t] := by
        rw [hsett, hd2]
      have hlen : (b.buffer.set b.writeIndex v).length = b.size := by
        rw [List.length_set, hb]
      calc (List.range b.size).map (fun i =>
            ((b.buffer.set b.writeIndex v).getD (((b.writeIndex + 1) % b.size + i) % b.size) 0,
             (b.timeBuffer.set b.writeIndex t).getD (((b.writeIndex + 1) % b.size + i) % b.size) 0))
          = (List.range b.size).map fun i =>
              ((b.buffer.set b.writeIndex v).getD i 0,
               (b.timeBuffer.set b.writeIndex t).getD i 0) := by
            refine List.map_congr_left fun i hi => ?_
            have hmod2 : ((b.writeIndex + 1) % b.size + i) % b.size = i := by
              rw [hmod, Nat.zero_add, Nat.mod_eq_of_lt (List.mem_range.mp hi)]
            rw [hmod2]
        _ = (b.buffer.set b.writeIndex v).zip (b.timeBuffer.set b.writeIndex t) := by
            rw [← hlen]
            exact map_getD_range_zip _ _ (by rw [List.length_set, List.length_set, hb, ht])
        _ = (b.buffer.take b.writeIndex).zip (b.timeBuffer.take b.writeIndex) ++ [(v, t)] := by
            rw [hsetb1, hsett1, List.zip_append (by rw [hlb, hlt'])]
            rfl
    · -- no wrap: still not full, the prefix simply extends
      have hlt2 : b.writeIndex + 1 < b.size := by omega
      have hmod : (b.writeIndex + 1) % b.size = b.writeIndex + 1 := Nat.mod_eq_of_lt hlt2
      have hfull' : (b.push v t).isFull = false := by
        simp [CircularBuffer.push, hf', hmod]
      rw [(b.push v t).chron_not_full hfull']
      show ((b.buffer.set b.writeIndex v).take ((b.writeIndex + 1) % b.size)).zip
          ((b.timeBuffer.set b.writeIndex t).take ((b.writeIndex + 1) % b.size)) = _
      have htake1 : (b.buffer.set b.writeIndex v).take (b.writeIndex + 1)
          = b.buffer.take b.writeIndex ++ [v] := by
        rw [hsetb, List.take_append_eq_append_take, hlb,
          List.take_of_length_le (le_of_eq (by rw [hlb]) |>.trans (by omega))]
        have h2 : b.writeIndex + 1 - b.writeIndex = 1 := by omega
        rw [h2]
        rfl
      have htake2 : (b.timeBuffer.set b.writeIndex t).take (b.writeIndex + 1)
          = b.timeBuffer.take b.writeIndex ++ [t] := by
        rw [hsett, List.take_append_eq_append_take, hlt',
          List.take_of_length_le (le_of_eq (by rw [hlt']) |>.trans (by omega))]
        have h2 : b.writeIndex + 1 - b.writeIndex = 1 := by omega
        rw [h2]
        rfl
      rw [hmod, htake1, htake2, List.zip_append (by rw [hlb, hlt'])]
      rfl

theorem CircularBuffer.pushAll_cons (b : CircularBuffer) (p : Int × Int)
    (L : List (Int × Int)) : b.pushAll (p :: L) = (b.push p.1 p.2).pushAll L := rfl

theorem CircularBuffer.size_push (b : CircularBuffer) (v t : Int) :
    (b.push v t).size = b.size := rfl

theorem CircularBuffer.size_pushAll (L : List (Int × Int)) :
    ∀ b : CircularBuffer, (b.pushAll L).size = b.size := by
  induction L with
  | nil => intro b; rfl
  | cons p L ih => intro b; rw [CircularBuffer.pushAll_cons, ih]; rfl

theorem CircularBuffer.WF_pushAll (L : List (Int × Int)) :
    ∀ b : CircularBuffer, b.WF → (b.pushAll L).WF := by
  induction L with
  | nil => intro b h; exact h
  | cons p L ih =>
      intro b h
      rw [CircularBuffer.pushAll_cons]
      exact ih _ (b.WF_push p.1 p.2 h)

/-- Pushing a list keeps exactly the most recent `size` pairs of the
combined history, in chronological order. -/
theorem CircularBuffer.chron_pushAll (L : List (Int × Int)) :
    ∀ b : CircularBuffer, b.WF →
      (b.pushAll L).chron = (b.chron ++ L).drop ((b.chron ++ L).length - b.size) := by
  induction L with
  | nil =>
      intro b hWF
      have hlen : b.chron.length ≤ b.size := by
        rw [b.chron_length hWF]
        split
        · exact le_rfl
        · exact le_of_lt hWF.2.2
      simp only [CircularBuffer.pushAll, List.foldl_nil, List.append_nil]
      rw [Nat.sub_eq_zero_of_le hlen, List.drop_zero]
  | cons p L ih =>
      intro b hWF
      rw [CircularBuffer.pushAll_cons, ih _ (b.WF_push p.1 p.2 hWF),
        b.chron_push p.1 p.2 hWF, CircularBuffer.size_push]
      by_cases hf : b.isFull
      · rw [if_pos hf]
        have hc : 0 < b.size := lt_of_le_of_lt (Nat.zero_le _) hWF.2.2
        have hlen : b.chron.length = b.size := by
          rw [b.chron_length hWF, if_pos hf]
        match hch : b.chron with
        | [] =>
            rw [hch] at hlen
            simp only [List.length_nil] at hlen
            omega
        | q :: qs =>
            have hqs : qs.length + 1 = b.size := by
              rw [hch] at hlen
              simpa using hlen
            simp only [List.drop_succ_cons, List.drop_zero, List.cons_append,
              List.nil_append, List.singleton_append, List.append_assoc,
              List.length_cons, List.length_append, List.length_nil, Prod.mk.eta]
            have h1 : qs.length + (L.length + 1) - b.size = L.length := by omega
            have h2 : qs.length + (L.length + 1) + 1 - b.size = L.length + 1 := by omega
            rw [h1, h2, List.drop_succ_cons]
      · rw [if_neg hf]
        simp only [List.append_assoc, List.singleton_append]

theorem CircularBuffer.getData_len (b : CircularBuffer) (h : b.WF) :
    b.getData.2.2 = b.chron.length := by
  rw [b.chron_length h]
  by_cases hf : b.isFull <;> simp [CircularBuffer.getData, hf]

theorem CircularBuffer.getData_fst (b : CircularBuffer) (h : b.WF) :
    b.getData.1 = b.chron.map Prod.fst := by
  obtain ⟨hb, ht, hw⟩ := h
  by_cases hf : b.isFull
  · rw [b.chron_full hf, List.map_map]
    simp only [CircularBuffer.getData, hf, if_pos]
    rfl
  · have hf' : b.isFull = false := Bool.not_eq_true _ ▸ hf
    rw [b.chron_not_full hf']
    simp only [CircularBuffer.getData, hf', Bool.false_eq_true, if_neg, if_false]
    rw [List.map_fst_zip]
    rw [List.length_take, List.length_take]
    omega

theorem CircularBuffer.getData_snd (b : CircularBuffer) (h : b.WF) :
    b.getData.2.1 = b.chron.map Prod.snd := by
  obtain ⟨hb, ht, hw⟩ := h
  by_cases hf : b.isFull
  · rw [b.chron_full hf, List.map_map]
    simp only [CircularBuffer.getData, hf, if_pos]
    rfl
  · have hf' : b.isFull = false := Bool.not_eq_true _ ▸ hf
    rw [b.chron_not_full hf']
    simp only [CircularBuffer.getData, hf', Bool.false_eq_true, if_neg, if_false]
    rw [List.map_snd_zip]
    rw [List.length_take, List.length_take]
    omega

/-- C3: for a circular buffer of capacity `c > 0`, `getData()` never returns
more than `c` entries; its length is `min n c` after `n` pushes; after `n`
pushes with `n < c` it returns exactly the `n` pushed (value, time) pairs in
push order, and after `c + k` pushes exactly the most recent `c` pushed
pairs, in chronological push order. -/
theorem circularBuffer_getData_spec (c : Nat) (hc : 0 < c) (L : List (Int × Int)) :
    ((CircularBuffer.init c).pushAll L).getData.2.2 ≤ c ∧
    ((CircularBuffer.init c).pushAll L).getData.2.2 = min L.length c ∧
    ((CircularBuffer.init c).pushAll L).getData.1
      = (L.map Prod.fst).drop (L.length - c) ∧
    ((CircularBuffer.init c).pushAll L).getData.2.1
      = (L.map Prod.snd).drop (L.length - c) := by
  have hWF0 : (CircularBuffer.init c).WF := CircularBuffer.WF_init c hc
  have hWF : ((CircularBuffer.init c).pushAll L).WF := CircularBuffer.WF_pushAll L _ hWF0
  have hchron0 : (CircularBuffer.init c).chron = [] := by
    simp [CircularBuffer.chron, CircularBuffer.getData, CircularBuffer.init]
  have hchron : ((CircularBuffer.init c).pushAll L).chron = L.drop (L.length - c) := by
    rw [CircularBuffer.chron_pushAll L _ hWF0, hchron0, List.nil_append]
    rfl
  have hlen : ((CircularBuffer.init c).pushAll L).getData.2.2 = min L.length c := by
    rw [CircularBuffer.getData_len _ hWF, hchron, List.length_drop]
    omega
  refine ⟨by rw [hlen]; omega, hlen, ?_, ?_⟩
  · rw [CircularBuffer.getData_fst _ hWF, hchron, List.map_drop]
  · rw [CircularBuffer.getData_snd _ hWF, hchron, List.map_drop]

/-- Witness for `circularBuffer_getData_spec`: capacity 2 and three pushes
keep the two most recent pairs. -/
theorem circularBuffer_getData_spec_witness :
    ((CircularBuffer.init 2).pushAll [(1, 10), (2, 20), (3, 30)]).getData.2.2 ≤ 2 ∧
    ((CircularBuffer.init 2).pushAll [(1, 10), (2, 20), (3, 30)]).getData.2.2
      = min [(1, 10), (2, 20), (3, 30)].length 2 ∧
    ((CircularBuffer.init 2).pushAll [(1, 10), (2, 20), (3, 30)]).getData.1
      = ([(1, 10), (2, 20), (3, 30)].map Prod.fst).drop ([(1, 10), (2, 20), (3, 30)].length - 2) ∧
    ((CircularBuffer.init 2).pushAll [(1, 10), (2, 20), (3, 30)]).getData.2.1
      = ([(1, 10), (2, 20), (3, 30)].map Prod.snd).drop ([(1, 10), (2, 20), (3, 30)].length - 2) :=
  circularBuffer_getData_spec 2 (by norm_num) [(1, 10), (2, 20), (3, 30)]

/-! ## C1: payload length, layout and clamping -/

theorem length_flatMap_const {α β : Type} (l : List α) (g : α → List β) (k : Nat)
    (h : ∀ a ∈ l, (g a).length = k) : (l.flatMap g).length = l.length * k := by
  induction l with
  | nil => simp
  | cons a l ih =>
      simp only [List.flatMap_cons, List.length_append, List.length_cons,
        h a (List.mem_cons_self a l), ih fun x hx => h x (List.mem_cons_of_mem a hx)]
      ring

theorem generatePayload_length (channels samplesPerChannel : Nat)
    (f : Nat → Nat → Int) :
    (generatePayload channels samplesPerChannel f).length
      = channels * samplesPerChannel * 2 := by
  unfold generatePayload
  have hinner : ∀ s ∈ List.range samplesPerChannel,
      ((List.range channels).flatMap fun ch => int16ToBytesLE (f s ch)).length
        = channels * 2 := by
    intro s _
    rw [length_flatMap_const _ _ 2 fun ch _ => int16ToBytesLE_length _, List.length_range]
  rw [length_flatMap_const _ _ (channels * 2) hinner, List.length_range]
  ring

theorem generatePayload_decode (channels samplesPerChannel : Nat)
    (f : Nat → Nat → Int) :
    decodeSamples (generatePayload channels samplesPerChannel f)
      = (List.range samplesPerChannel).flatMap fun s =>
          (List.range channels).map fun ch =>
            decodeInt16LE (int16ToBytesLE (f s ch))[0]! (int16ToBytesLE (f s ch))[1]! := by
  unfold generatePayload
  have hassoc : ((List.range samplesPerChannel).flatMap fun s =>
        (List.range channels).flatMap fun ch => int16ToBytesLE (f s ch))
      = ((List.range samplesPerChannel).flatMap fun s =>
          (List.range channels).map fun ch => (f s ch)).flatMap int16ToBytesLE := by
    rw [List.flatMap_assoc]
    refine congrArg _ (funext fun s => ?_)
    rw [List.flatMap_map]
  rw [hassoc, decodeSamples_flatMap, List.map_flatMap]
  refine congrArg _ (funext fun s => ?_)
  rw [List.map_map]
  rfl

theorem truncReal_clampReal_bounds (v : ℝ) :
    -32768 ≤ truncReal (clampReal v) ∧ truncReal (clampReal v) ≤ 32767 := by
  have h1 : (-32768 : ℝ) ≤ clampReal v := le_max_left _ _
  have h2 : clampReal v ≤ 32767 :=
    max_le (by norm_num) (min_le_left _ _)
  unfold truncReal
  split
  · next h =>
      constructor
      · exact le_trans (by norm_num) (Int.floor_nonneg.mpr h)
      · have := Int.floor_le_floor h2
        simpa using this
  · next h =>
      constructor
      · have hcc := Int.ceil_le_ceil h1
        have hc0 : ⌈(-32768 : ℝ)⌉ = -32768 := by
          rw [show (-32768 : ℝ) = ((-32768 : ℤ) : ℝ) by norm_num]
          exact Int.ceil_intCast _
        omega
      · have hv : clampReal v ≤ 0 := le_of_not_le h
        have hcc := Int.ceil_le_ceil hv
        have hc0 : ⌈(0 : ℝ)⌉ = 0 := Int.ceil_zero
        omega

/-- C1: for every valid request, each chunk payload the server generator
produces has byte length exactly `channels * bufferSize * 2`, and decoding
it as channel-interleaved little-endian signed 16-bit samples (sample-major,
channel-minor) recovers exactly the clamped per-(sample, channel) values,
each in `[-32768, 32767]`. -/
theorem generateHighPerformanceData_spec (r : DataRequest) (seq : Nat)
    (noise : Nat → Nat → ℝ) (h1 : 0 < r.channels) (h2 : 0 < r.sampleRate)
    (h3 : 0 < r.bufferSize) :
    (generateHighPerformanceData r seq noise).length = r.channels * r.bufferSize * 2 ∧
    decodeSamples (generateHighPerformanceData r seq noise)
      = ((List.range r.bufferSize).flatMap fun s =>
          (List.range r.channels).map fun ch =>
            serverSampleInt r.sampleRate r.bufferSize seq s ch (noise s ch)) ∧
    ∀ x ∈ decodeSamples (generateHighPerformanceData r seq noise),
      -32768 ≤ x ∧ x ≤ 32767 := by
  have hdec : decodeSamples (generateHighPerformanceData r seq noise)
      = ((List.range r.bufferSize).flatMap fun s =>
          (List.range r.channels).map fun ch =>
            serverSampleInt r.sampleRate r.bufferSize seq s ch (noise s ch)) := by
    unfold generateHighPerformanceData
    rw [generatePayload_decode]
    refine congrArg _ (funext fun s => List.map_congr_left fun ch _ => ?_)
    exact decode_int16ToBytesLE _
      (truncReal_clampReal_bounds _).1 (truncReal_clampReal_bounds _).2
  refine ⟨generatePayload_length _ _ _, hdec, ?_⟩
  intro x hx
  rw [hdec] at hx
  obtain ⟨s, _, hx⟩ := List.mem_flatMap.mp hx
  obtain ⟨ch, _, rfl⟩ := List.mem_map.mp hx
  exact truncReal_clampReal_bounds _

/-- Witness for `generateHighPerformanceData_spec` at a concrete request. -/
theorem generateHighPerformanceData_spec_witness :
    (generateHighPerformanceData ⟨1, 1000, 1, []⟩ 0 fun _ _ => 0).length = 1 * 1 * 2 ∧
    decodeSamples (generateHighPerformanceData ⟨1, 1000, 1, []⟩ 0 fun _ _ => 0)
      = ((List.range 1).flatMap fun s =>
          (List.range 1).map fun ch => serverSampleInt 1000 1 0 s ch 0) ∧
    ∀ x ∈ decodeSamples (generateHighPerformanceData ⟨1, 1000, 1, []⟩ 0 fun _ _ => 0),
      -32768 ≤ x ∧ x ≤ 32767 :=
  generateHighPerformanceData_spec ⟨1, 1000, 1, []⟩ 0 (fun _ _ => 0)
    (by norm_num) (by norm_num) (by norm_num)

/-! ## C10: the generator ignores the config map -/

/-- C10: the server generator's payload depends only on channels, buffer
size, sample rate, the sequence number and the noise draws — two requests
differing only in the `config` map (requested waveform kind, amplitude, base
frequency, noise level, anything else) yield identical payloads. -/
theorem generateHighPerformanceData_ignores_config (r1 r2 : DataRequest)
    (seq : Nat) (noise : Nat → Nat → ℝ) (hc : r1.channels = r2.channels)
    (hs : r1.sampleRate = r2.sampleRate) (hb : r1.bufferSize = r2.bufferSize) :
    generateHighPerformanceData r1 seq noise
      = generateHighPerformanceData r2 seq noise := by
  unfold generateHighPerformanceData
  rw [hc, hs, hb]

/-- Witness for `generateHighPerformanceData_ignores_config`: a request
asking for a sine waveform at amplitude 0.1 yields the same payload as one
with an empty config. -/
theorem generateHighPerformanceData_ignores_config_witness :
    generateHighPerformanceData
        ⟨2, 100, 3, [("waveform", "sine"), ("amplitude", "0.1")]⟩ 5 (fun _ _ => 1 / 2)
      = generateHighPerformanceData ⟨2, 100, 3, []⟩ 5 (fun _ _ => 1 / 2) :=
  generateHighPerformanceData_ignores_config _ _ 5 _ rfl rfl rfl

/-! ## C6: the "sine scenario" chunk -/

theorem serverSampleReal_eq (a b c d e : Nat) (u : ℝ) :
    serverSampleReal a b c d e u
      = 32767 * (8 / 10) * ((6 / 10) * Real.sin (2 * Real.pi * ((1000 : ℝ)
            * (1 + (e : ℝ) * (1 / 10))) * (((c * b + d : Nat) : ℝ) / ((a : Nat) : ℝ)))
          + (3 / 10) * Real.sin (2 * (2 * Real.pi * ((1000 : ℝ)
            * (1 + (e : ℝ) * (1 / 10))) * (((c * b + d : Nat) : ℝ) / ((a : Nat) : ℝ))))
          + (1 / 10) * Real.sin (3 * (2 * Real.pi * ((1000 : ℝ)
            * (1 + (e : ℝ) * (1 / 10))) * (((c * b + d : Nat) : ℝ) / ((a : Nat) : ℝ)))))
        + (u - 1 / 2) * (32767 * (8 / 10)) * (2 / 100) := rfl

/-- At 1000 Hz sampling, channel 0 of the first chunk reduces to the noise
term alone: the fixed 1 kHz harmonics alias to zero at every sample. -/
theorem serverSampleReal_aliased (s : Nat) (u : ℝ) :
    serverSampleReal 1000 4 0 s 0 u = (u - 1 / 2) * (32767 * (8 / 10)) * (2 / 100) := by
  rw [serverSampleReal_eq]
  have hphi : 2 * Real.pi * ((1000 : ℝ) * (1 + ((0 : Nat) : ℝ) * (1 / 10)))
      * (((0 * 4 + s : Nat) : ℝ) / ((1000 : Nat) : ℝ)) = ((2 * s : Nat) : ℝ) * Real.pi := by
    push_cast
    field_simp
    ring
  rw [hphi]
  have h2 : (2 : ℝ) * (((2 * s : Nat) : ℝ) * Real.pi) = ((4 * s : Nat) : ℝ) * Real.pi := by
    push_cast
    ring
  have h3 : (3 : ℝ) * (((2 * s : Nat) : ℝ) * Real.pi) = ((6 * s : Nat) : ℝ) * Real.pi := by
    push_cast
    ring
  rw [h2, h3, Real.sin_nat_mul_pi, Real.sin_nat_mul_pi, Real.sin_nat_mul_pi]
  ring

theorem serverSampleInt_aliased_zero (s : Nat) :
    serverSampleInt 1000 4 0 s 0 (1 / 2) = 0 := by
  unfold serverSampleInt
  rw [serverSampleReal_aliased]
  have hv : ((1 : ℝ) / 2 - 1 / 2) * (32767 * (8 / 10)) * (2 / 100) = 0 := by norm_num
  rw [hv]
  unfold clampReal truncReal
  have hmin : min (32767 : ℝ) 0 = 0 := by norm_num
  have hmax : max (-32768 : ℝ) 0 = 0 := by norm_num
  rw [hmin, hmax, if_pos le_rfl, Int.floor_zero]

/-- C6 counterexample: for
`Subscribe({channels:1, sampleRate:1000, bufferSize:4, waveformKind:"sine",
amplitude:1.0, baseFrequency:250})` with the noise draw fixed at 1/2, the
first chunk decodes to `[0, 0, 0, 0]` — not one period of a scaled sine
`[0, 32767, 0, -32767]`: the second sample is 0, which is more than 3276
counts (10% of full scale) away from the claimed peak 32767. -/
theorem subscribe_sine_scenario_counterexample :
    decodeSamples (generateHighPerformanceData
        ⟨1, 1000, 4, [("waveformKind", "sine"), ("amplitude", "1.0"),
          ("baseFrequency", "250")]⟩ 0 fun _ _ => 1 / 2)
      = [0, 0, 0, 0] ∧
    ¬ |(0 : Int) - 32767| ≤ 3276 := by
  constructor
  · unfold generateHighPerformanceData
    rw [generatePayload_decode]
    calc (List.range 4).flatMap (fun s => (List.range 1).map fun ch =>
          decodeInt16LE
            (int16ToBytesLE (serverSampleInt 1000 4 0 s ch (1 / 2)))[0]!
            (int16ToBytesLE (serverSampleInt 1000 4 0 s ch (1 / 2)))[1]!)
        = (List.range 4).flatMap fun _ => [(0 : Int)] := by
          refine congrArg _ (funext fun s => ?_)
          have hch : List.range 1 = [0] := rfl
          have hb1 : -32768 ≤ serverSampleInt 1000 4 0 s 0 (1 / 2) :=
            (truncReal_clampReal_bounds _).1
          have hb2 : serverSampleInt 1000 4 0 s 0 (1 / 2) ≤ 32767 :=
            (truncReal_clampReal_bounds _).2
          rw [hch, List.map_singleton, decode_int16ToBytesLE _ hb1 hb2,
            serverSampleInt_aliased_zero s]
      _ = [0, 0, 0, 0] := rfl
  · decide

/-- C6 amended: in that scenario the server ignores the requested sine
configuration and emits its fixed mixed 1 kHz waveform, which aliases to
zero at 1000 Hz sampling: every sample of the first chunk is only the ±2%
noise term, bounded by 263 counts — approximately `[0, 0, 0, 0]`, and every
sample is at least 32504 counts away from the claimed peak 32767. -/
theorem subscribe_sine_scenario_aliased (s : Nat) (u : ℝ)
    (h0 : 0 ≤ u) (h1 : u < 1) :
    |serverSampleInt 1000 4 0 s 0 u| ≤ 263 ∧
    32504 ≤ |serverSampleInt 1000 4 0 s 0 u - 32767| := by
  have hub : (u - 1 / 2) * (32767 * (8 / 10)) * (2 / 100) ≤ 263 := by nlinarith
  have hlb : -263 ≤ (u - 1 / 2) * (32767 * (8 / 10)) * (2 / 100) := by nlinarith
  have habs : |serverSampleInt 1000 4 0 s 0 u| ≤ 263 := by
    unfold serverSampleInt
    rw [serverSampleReal_aliased]
    set v : ℝ := (u - 1 / 2) * (32767 * (8 / 10)) * (2 / 100) with hv
    have hclamp : clampReal v = v := by
      unfold clampReal
      rw [min_eq_right (le_trans hub (by norm_num)),
        max_eq_right (le_trans (by norm_num) hlb)]
    rw [hclamp]
    unfold truncReal
    split
    · next hpos =>
        have hf1 : ⌊v⌋ ≤ 263 := by
          have hceq : (263 : ℝ) = ((263 : Int) : ℝ) := by norm_num
          calc ⌊v⌋ ≤ ⌊(263 : ℝ)⌋ := Int.floor_le_floor hub
            _ = 263 := by rw [hceq, Int.floor_intCast]
        have hf2 : 0 ≤ ⌊v⌋ := Int.floor_nonneg.mpr hpos
        exact abs_le.mpr ⟨by omega, hf1⟩
    · next hneg =>
        have hc1 : -263 ≤ ⌈v⌉ := by
          have hceq : (-263 : ℝ) = ((-263 : Int) : ℝ) := by norm_num
          calc (-263 : Int) = ⌈((-263 : Int) : ℝ)⌉ := (Int.ceil_intCast _).symm
            _ ≤ ⌈v⌉ := Int.ceil_le_ceil (by rw [← hceq]; exact hlb)
        have hc2 : ⌈v⌉ ≤ 0 := by
          have := Int.ceil_le_ceil (le_of_not_le hneg)
          simpa using this
        exact abs_le.mpr ⟨hc1, by omega⟩
  refine ⟨habs, ?_⟩
  have hle : serverSampleInt 1000 4 0 s 0 u ≤ 263 := (abs_le.mp habs).2
  exact le_abs.mpr (Or.inr (by omega))

/-- Witness for `subscribe_sine_scenario_aliased` at the second sample with
noise draw 1/2. -/
theorem subscribe_sine_scenario_aliased_witness :
    |serverSampleInt 1000 4 0 1 0 (1 / 2)| ≤ 263 ∧
    32504 ≤ |serverSampleInt 1000 4 0 1 0 (1 / 2) - 32767| :=
  subscribe_sine_scenario_aliased 1 (1 / 2) (by norm_num) (by norm_num)
